import Mathlib

/-!
# event-json-rpc: the connection callbacks of `ej_rpc_srv.c`

A shallow embedding of `on_accept`, `on_read` and `on_write` of
`src/ej_rpc_srv.c`, the three libevent callbacks that make up the connection
state machine of the server, followed by theorems about them.

Modelling conventions.

* The world a callback acts on is a `Conn`: the descriptor, the two libevent
  registrations of the client, the `writeq` tail queue, the heap blocks that
  are currently allocated, the bytes the peer has received so far, and a
  chronological trace of the externally visible actions.
* System calls are answered by an oracle handed to the callback (`ReadSys`,
  `WriteSys`): what `read(2)` would find in the socket, how many bytes
  `write(2)` would take.  The kernel never transfers more than `count` bytes,
  so the model truncates the oracle's answer to `count`.
* `int` variables are `Int`; the only place where the 32-bit width matters is
  the header, which is loaded from and stored to four bytes of memory.
* A callback ends in one of three ways (`Outcome`): it returns, it terminates
  the process through `err(1, ...)`, or it reaches undefined behaviour of C
  (a store outside `req_buf`, a use of the freed `struct client`).
-/

namespace EjRpcSrv

/-! ## Bytes and the in-memory representation of `int` -/

abbrev Byte := Fin 256

/-- Byte order of the host: `read(fd, &body_len, 4)` and
`write(fd, &body_len, 4)` move the native representation of the integer. -/
inductive Endian
  | little
  | big
  deriving DecidableEq, Repr

/-- Modelled from the spec: `PROTOCOL_HEADER_LEN` is defined in `server.h`,
which is absent; the wire format has a 4-byte body length. -/
def PROTOCOL_HEADER_LEN : Nat := 4

/-- Width of `size_t`, the type of the `count` argument of `read(2)`. -/
def SIZE_BITS : Nat := 64

/-- Value of a little-endian digit string. -/
def le_value : List Byte → Nat
  | [] => 0
  | b :: bs => b.val + 256 * le_value bs

/-- Little-endian digits of `n`, `w` of them. -/
def le_bytes : Nat → Nat → List Byte
  | 0, _ => []
  | w + 1, n => ⟨n % 256, Nat.mod_lt _ (by decide)⟩ :: le_bytes w (n / 256)

/-- Two's complement reading of a 32-bit pattern. -/
def to_int32 (n : Nat) : Int :=
  if n % 2 ^ 32 < 2 ^ 31 then ((n % 2 ^ 32 : Nat) : Int)
  else ((n % 2 ^ 32 : Nat) : Int) - 2 ^ 32

/-- The `int` held by four bytes of memory (address order). -/
def load_int (e : Endian) (mem : List Byte) : Int :=
  match e with
  | .little => to_int32 (le_value mem)
  | .big => to_int32 (le_value mem.reverse)

/-- The four bytes of memory (address order) holding the `int` `v`. -/
def store_int (e : Endian) (v : Int) : List Byte :=
  match e with
  | .little => le_bytes 4 (v % 2 ^ 32).toNat
  | .big => (le_bytes 4 (v % 2 ^ 32).toNat).reverse

/-! ## System calls -/

inductive Errno
  | EINTR
  | EAGAIN
  | EOTHER
  deriving DecidableEq, Repr

/-- What a `read(2)` finds: an error (`-1`), or the bytes the socket can
deliver now, of which at most `count` are transferred (none: the call
returns `0`). -/
inductive ReadResult
  | error
  | data (avail : List Byte)
  deriving DecidableEq, Repr

/-- What a `write(2)` does: an error (`-1`, with `errno`), or the number of
bytes the socket can take now, of which at most `count` are taken. -/
inductive WriteResult
  | error (e : Errno)
  | accept (room : Nat)
  deriving DecidableEq, Repr

/-- Bytes transferred by `read(fd, buf, count)`. -/
def ReadResult.delivered (r : ReadResult) (count : Nat) : List Byte :=
  match r with
  | .error => []
  | .data avail => avail.take count

/-- Return value of `read(fd, buf, count)`. -/
def ReadResult.ret (r : ReadResult) (count : Nat) : Int :=
  match r with
  | .error => -1
  | .data avail => ((avail.take count).length : Int)

/-- Bytes of `offered` taken by `write(fd, offered, offered.length)`. -/
def WriteResult.taken (r : WriteResult) (offered : List Byte) : List Byte :=
  match r with
  | .error _ => []
  | .accept room => offered.take room

/-! ## Data model (`struct bufferq`, `struct client`) -/

structure Request where
  buf : List Byte
  json : Bool
  deriving DecidableEq, Repr

structure Response where
  buf : List Byte
  body_len : Int
  offset : Int
  json : Bool
  deriving DecidableEq, Repr

/-- One entry of the write queue.  `id` stands for the address of the node:
it is the serial number of the `on_read` invocation that allocated it. -/
structure Bufferq where
  id : Nat
  request : Request
  response : Response
  deriving DecidableEq, Repr

/-- Heap blocks the callbacks allocate and free. -/
inductive Block
  | client
  | request_buf (id : Nat)
  | request_json (id : Nat)
  | response_buf (id : Nat)
  | response_json (id : Nat)
  | bufferq (id : Nat)
  deriving DecidableEq, Repr

/-- Externally visible actions, recorded in the order they happen. -/
inductive Event
  | sys_read (count : Nat)
  | sys_write (id : Nat) (offered : List Byte) (taken : List Byte)
  | sys_close
  | handler (id : Nat) (req_buf : List Byte)
  | insert_tail (id : Nat)
  | remove (id : Nat)
  deriving DecidableEq, Repr

/-- One client connection and the part of the world its callbacks touch. -/
structure Conn where
  fd_open : Bool
  ev_read : Bool
  ev_write : Bool
  writeq : List Bufferq
  heap : List Block
  next : Nat
  wire : List Byte
  trace : List Event
  deriving DecidableEq, Repr

/-- How a callback ends. -/
inductive Outcome
  | returned (c : Conn)
  | exited (c : Conn)
  | undefined (c : Conn)
  deriving DecidableEq, Repr

/-- The connection state an outcome carries. -/
def Outcome.conn : Outcome → Conn
  | .returned c => c
  | .exited c => c
  | .undefined c => c

/-- What the dispatcher leaves in the response. -/
structure Reply where
  buf : List Byte
  body_len : Int
  deriving DecidableEq, Repr

/-- Compile-time and link-time parameters of the server.  `BUFLEN` is defined
in `server.h`, which is absent: it is a parameter, an `int` constant as in
`#define BUFLEN 1024`.  `rpc_handler` is defined behind `handler.h`, which is
absent: it is a parameter, a function of the request buffer that fills in
`response.buf` and `response.body_len`. -/
structure Env where
  BUFLEN : Nat
  endian : Endian
  rpc_handler : List Byte → Reply

/-- Answers of the environment to one `on_read` invocation. -/
structure ReadSys where
  malloc_ok : Bool
  junk : Nat → Byte
  header : ReadResult
  body : ReadResult
  calloc_ok : Bool
  parse_ok : Bool
  create_ok : Bool

/-- Answers of the environment to one `on_write` invocation. -/
structure WriteSys where
  header : WriteResult
  body : WriteResult
  deriving DecidableEq, Repr

/-! ## The callbacks -/

/-- The `struct client` of the connection is allocated. -/
def Conn.client_live (c : Conn) : Bool := decide (Block.client ∈ c.heap)

/-- A freshly accepted client, as `on_accept` leaves it: `ev_read` set and
added, `ev_write` set but not added, `writeq` initialised empty. -/
def accepted : Conn :=
  { fd_open := true, ev_read := true, ev_write := false, writeq := [],
    heap := [Block.client], next := 0, wire := [], trace := [] }

/-- The callback `on_accept`: nothing happens when `accept` fails, the
process exits when `calloc` fails, and otherwise a client is set up. -/
def on_accept (accept_ok calloc_ok : Bool) : Option Outcome :=
  if !accept_ok then none
  else if !calloc_ok then some (.exited { accepted with ev_read := false, heap := [] })
  else some (.returned accepted)

/-- The label `READ_EXCEPTION` of `on_read`: `close(fd)`,
`event_del(&client->ev_read)`, `free(client)`, `free(req_buf)`. -/
def read_exception (id : Nat) (c : Conn) : Conn :=
  { c with
    fd_open := false
    ev_read := false
    heap := (c.heap.erase Block.client).erase (Block.request_buf id)
    trace := c.trace ++ [Event.sys_close] }

/-- The blocks an entry of the write queue owns besides `request.buf`. -/
def entry_blocks (id : Nat) (parse_ok create_ok : Bool) : List Block :=
  [Block.bufferq id] ++ (if parse_ok then [Block.request_json id] else [])
    ++ [Block.response_buf id]
    ++ (if create_ok then [Block.response_json id] else [])

/-- The entry `on_read` builds around the terminated request buffer: the
parsed request, an empty response (`body_len` 0, `offset` 0, a fresh
document), and then what `on_handler` leaves in the response. -/
def new_entry (env : Env) (sys : ReadSys) (id : Nat) (req_buf : List Byte) : Bufferq :=
  { id := id
    request := { buf := req_buf, json := sys.parse_ok }
    response :=
      { buf := (env.rpc_handler req_buf).buf
        body_len := (env.rpc_handler req_buf).body_len
        offset := 0
        json := sys.create_ok } }

/-- The tail of `on_read` once `calloc` has succeeded: build the entry, call
`on_handler`, `TAILQ_INSERT_TAIL`, `event_add(&client->ev_write)`. -/
def queue_exchange (env : Env) (sys : ReadSys) (id : Nat) (req_buf : List Byte)
    (c : Conn) : Conn :=
  { c with
    heap := c.heap ++ entry_blocks id sys.parse_ok sys.create_ok
    writeq := c.writeq ++ [new_entry env sys id req_buf]
    ev_write := true
    trace := c.trace ++ [Event.handler id req_buf, Event.insert_tail id] }

/-- The condition of the header check of `on_read`:
`PROTOCOL_HEADER_LEN != len || body_len > BUFLEN`, on `int` operands. -/
def header_wrong (env : Env) (len body_len : Int) : Prop :=
  (PROTOCOL_HEADER_LEN : Int) ≠ len ∨ body_len > (env.BUFLEN : Int)

instance (env : Env) (len body_len : Int) : Decidable (header_wrong env len body_len) := by
  unfold header_wrong; infer_instance

/-- The index of `req_buf[body_len] = 0` lies inside the `BUFLEN` bytes
`malloc` returned. -/
def store_in_bounds (env : Env) (body_len : Int) : Prop :=
  0 ≤ body_len ∧ body_len < (env.BUFLEN : Int)

instance (env : Env) (body_len : Int) : Decidable (store_in_bounds env body_len) := by
  unfold store_in_bounds; infer_instance

/-- The callback `on_read`. -/
def on_read (env : Env) (sys : ReadSys) (c : Conn) : Outcome :=
  if !c.client_live then .undefined c
  else if !sys.malloc_ok then .exited c
  else
    let id := c.next
    let req_buf0 : List Byte := (List.range env.BUFLEN).map sys.junk
    let c1 : Conn :=
      { c with
        next := id + 1
        heap := c.heap ++ [Block.request_buf id]
        trace := c.trace ++ [Event.sys_read PROTOCOL_HEADER_LEN] }
    let hdr := sys.header.delivered PROTOCOL_HEADER_LEN
    let len := sys.header.ret PROTOCOL_HEADER_LEN
    let body_len : Int :=
      load_int env.endian (hdr ++ List.replicate (PROTOCOL_HEADER_LEN - hdr.length) 0)
    if header_wrong env len body_len then .returned (read_exception id c1)
    else
      let count : Nat := (body_len % 2 ^ SIZE_BITS).toNat
      let c2 : Conn := { c1 with trace := c1.trace ++ [Event.sys_read count] }
      let got := sys.body.delivered count
      let len := sys.body.ret count
      if got.length > env.BUFLEN then .undefined c2
      else if len = 0 then .returned (read_exception id c2)
      else if len < 0 then .returned (read_exception id c2)
      else if ¬ store_in_bounds env body_len then .undefined c2
      else if !sys.calloc_ok then .exited c2
      else
        let req_buf := (got ++ req_buf0.drop got.length).set body_len.toNat 0
        .returned (queue_exchange env sys id req_buf c2)

/-- The blocks `on_write` frees when an entry is complete: `request.buf`,
`response.buf`, the two documents when not `NULL`, and the node. -/
def freed_blocks (b : Bufferq) : List Block :=
  [Block.request_buf b.id, Block.response_buf b.id]
    ++ (if b.request.json then [Block.request_json b.id] else [])
    ++ (if b.response.json then [Block.response_json b.id] else [])
    ++ [Block.bufferq b.id]

/-- One `write(fd, offered, offered.length)` on behalf of entry `id`. -/
def sys_write (id : Nat) (offered : List Byte) (r : WriteResult) (c : Conn) : Conn :=
  { c with
    wire := c.wire ++ r.taken offered
    trace := c.trace ++ [Event.sys_write id offered (r.taken offered)] }

/-- The bytes `response.buf + offset`, `body_len - offset` of them.  Whether
that range lies inside `response.buf` is decided by the absent handler; the
model offers the bytes the buffer holds in the range. -/
def remaining (r : Response) : List Byte :=
  (r.buf.drop r.offset.toNat).take (r.body_len - r.offset).toNat

/-- The statement `bufferq->response.offset += len`. -/
def advance (b : Bufferq) (len : Int) : Bufferq :=
  { b with response := { b.response with offset := b.response.offset + len } }

/-- The callback `on_write`. -/
def on_write (env : Env) (sys : WriteSys) (c : Conn) : Outcome :=
  if !c.client_live then .undefined c
  else
    match c.writeq with
    | [] => .returned c
    | b :: rest =>
      let c1 : Conn :=
        if b.response.offset = 0 then
          sys_write b.id (store_int env.endian b.response.body_len) sys.header c
        else c
      let offered := remaining b.response
      let c2 := sys_write b.id offered sys.body c1
      match sys.body with
      | .error e =>
        if e = Errno.EINTR ∨ e = Errno.EAGAIN then .returned { c2 with ev_write := true }
        else .exited c2
      | .accept room =>
        let len : Int := ((offered.take room).length : Int)
        if b.response.offset + len < b.response.body_len then
          .returned
            { c2 with
              writeq := advance b len :: rest
              ev_write := true }
        else
          .returned
            { c2 with
              writeq := rest
              heap := c2.heap.diff (freed_blocks b)
              trace := c2.trace ++ [Event.remove b.id] }

/-! ## The reactor -/

/-- A readiness notification libevent delivers to the client. -/
inductive Callback
  | read (sys : ReadSys)
  | write (sys : WriteSys)

/-- Libevent runs a callback only when its event is added.  `ev_read` is
`EV_PERSIST`; `ev_write` is not, so it is removed before `on_write` runs. -/
def enabled (c : Conn) : Callback → Bool
  | .read _ => c.ev_read
  | .write _ => c.ev_write

/-- One turn of the event loop for this client. -/
def fire (env : Env) (c : Conn) (cb : Callback) : Outcome :=
  match cb with
  | .read sys => if c.ev_read then on_read env sys c else .returned c
  | .write sys =>
    if c.ev_write then on_write env sys { c with ev_write := false } else .returned c

/-- The event loop: notifications are served in order until the process
stops. -/
def run (env : Env) : Outcome → List Callback → Outcome
  | .returned c, cb :: cbs => run env (fire env c cb) cbs
  | o, _ => o

/-! ## Observations on traces -/

/-- The callback returned to the event loop. -/
def Outcome.is_returned : Outcome → Bool
  | .returned _ => true
  | _ => false

/-- The callback reached undefined behaviour. -/
def Outcome.is_undefined : Outcome → Bool
  | .undefined _ => true
  | _ => false

/-- Number of dispatcher invocations recorded in a trace. -/
def handler_calls : List Event → Nat
  | [] => 0
  | Event.handler _ _ :: t => handler_calls t + 1
  | _ :: t => handler_calls t

/-- Entries appended to the queue, in order. -/
def inserted : List Event → List Nat
  | [] => []
  | Event.insert_tail id :: t => id :: inserted t
  | _ :: t => inserted t

/-- Entries taken off the queue, in order. -/
def removed : List Event → List Nat
  | [] => []
  | Event.remove id :: t => id :: removed t
  | _ :: t => removed t

/-- The entry each `write(2)` was made for, in order. -/
def written : List Event → List Nat
  | [] => []
  | Event.sys_write id _ _ :: t => id :: written t
  | _ :: t => written t

/-- What the framing round trip asks of `on_read` for a body `B`: the header
decodes to the length of `B`, the callback returns with the connection open,
and the dispatcher is handed a buffer that starts with `B`. -/
def frame_accepted (env : Env) (sys : ReadSys) (c : Conn) (B : List Byte) : Prop :=
  load_int env.endian (sys.header.delivered PROTOCOL_HEADER_LEN) = (B.length : Int) ∧
  ∃ c1 req,
    on_read env sys c = .returned c1 ∧ c1.fd_open = c.fd_open ∧
    c1.trace = c.trace ++ [Event.sys_read PROTOCOL_HEADER_LEN, Event.sys_read B.length,
      Event.handler c.next req, Event.insert_tail c.next] ∧
    req.take B.length = B ∧
    ∃ b, c1.writeq = c.writeq ++ [b] ∧ b.id = c.next ∧ b.request.buf = req

/-- The ordering invariant of a connection: the entries removed so far
followed by the entries still queued are the entries appended, in the order
they were appended; entry identifiers were handed out in increasing order;
and every `write(2)` made so far was for an identifier that is at most
every identifier still queued. -/
def fifo_inv (c : Conn) : Prop :=
  removed c.trace ++ c.writeq.map (fun b => b.id) = inserted c.trace ∧
  (inserted c.trace).Pairwise (fun i j => i < j) ∧
  (∀ i ∈ inserted c.trace, i < c.next) ∧
  (written c.trace).Pairwise (fun i j => i ≤ j) ∧
  (∀ w ∈ written c.trace, w ∈ inserted c.trace) ∧
  (∀ w ∈ written c.trace, ∀ i ∈ c.writeq.map (fun b => b.id), w ≤ i)

/-- The cursor invariant of a connection: no queued response has been
written past its end. -/
def offset_inv (c : Conn) : Prop :=
  ∀ b ∈ c.writeq, b.response.offset ≤ b.response.body_len

/-! ## Concrete inputs -/

/-- A build with `BUFLEN` 1024 on a little-endian host whose handler answers
with the first two bytes of the request. -/
def demo_env : Env :=
  { BUFLEN := 1024
    endian := Endian.little
    rpc_handler := fun r => { buf := r.take 2, body_len := 2 } }

/-- An `on_read` turn in which every allocation succeeds and the two reads
find `header` and `body`. -/
def read_sys (header body : ReadResult) : ReadSys :=
  { malloc_ok := true
    junk := fun _ => 0xAA
    header := header
    body := body
    calloc_ok := true
    parse_ok := true
    create_ok := true }

/-- The state of a fresh client when `on_read` issues its second `read`
after a header that made it ask for `count` bytes. -/
def at_body_read (count : Nat) : Conn :=
  { accepted with
    next := 1
    heap := [Block.client, Block.request_buf 0]
    trace := [Event.sys_read PROTOCOL_HEADER_LEN, Event.sys_read count] }

/-- A queue entry whose response `7b 7d` has not been written yet. -/
def queued_entry : Bufferq :=
  { id := 0
    request := { buf := [0x7b, 0x7d, 0], json := true }
    response := { buf := [0x7b, 0x7d], body_len := 2, offset := 0, json := true } }

/-- A client with `queued_entry` as its only queued exchange. -/
def queued_conn : Conn :=
  { accepted with
    writeq := [queued_entry]
    heap := [Block.client] ++ [Block.request_buf 0] ++ entry_blocks 0 true true
    next := 1 }

/-- The client sends the frame `00 00 00 00`, whose body is empty. -/
def empty_frame_sys : ReadSys :=
  read_sys (.data (store_int demo_env.endian 0)) (.data [])

/-- A body of `BUFLEN` bytes for `demo_env`. -/
def full_body : List Byte := List.replicate 1024 0x20

/-- The client sends the frame whose header is `00 04 00 00` and whose body
is `full_body`. -/
def full_frame_sys : ReadSys :=
  read_sys (.data (store_int demo_env.endian 1024)) (.data full_body)

/-- The client sends the frame `02 00 00 00 7b 7d`. -/
def request_turn : Callback :=
  Callback.read (read_sys (.data [2, 0, 0, 0]) (.data [0x7b, 0x7d]))

/-- A write-ready turn in which the socket takes the header and then reports
`EAGAIN` for the body. -/
def blocked_turn : Callback :=
  Callback.write { header := .accept 4, body := .error Errno.EAGAIN }

/-- A write-ready turn in which the socket takes the header and one byte of
the body. -/
def short_write_turn : Callback :=
  Callback.write { header := .accept 4, body := .accept 1 }

/-- A write-ready turn in which the socket takes everything offered. -/
def flush_turn : Callback :=
  Callback.write { header := .accept 4, body := .accept 1024 }

/-- A write-ready turn in which the write of the header fails and the write
of the body is taken in full. -/
def headerless_turn : Callback :=
  Callback.write { header := .error Errno.EAGAIN, body := .accept 1024 }

/-- The client has closed its side: the header read returns 0. -/
def hangup_turn : Callback :=
  Callback.read (read_sys (.data []) (.data []))

end EjRpcSrv

namespace EjRpcSrv

/-! ## Header representation -/

theorem le_bytes_length (w n : Nat) : (le_bytes w n).length = w := by
  induction w generalizing n with
  | zero => rfl
  | succ w ih => simp [le_bytes, ih]

theorem le_value_le_bytes (w n : Nat) : le_value (le_bytes w n) = n % 256 ^ w := by
  induction w generalizing n with
  | zero => simp [le_bytes, le_value, Nat.mod_one]
  | succ w ih =>
    simp only [le_bytes, le_value, ih]
    rw [show 256 ^ (w + 1) = 256 * 256 ^ w from by ring, Nat.mod_mul]

theorem store_int_length (e : Endian) (v : Int) : (store_int e v).length = 4 := by
  cases e <;> simp [store_int, le_bytes_length]

theorem load_store_int (e : Endian) (n : Nat) (h : n < 2 ^ 31) :
    load_int e (store_int e (n : Int)) = (n : Int) := by
  have h1 : ((n : Int) % 2 ^ 32).toNat = n := by omega
  have h2 : n % 256 ^ 4 = n := Nat.mod_eq_of_lt (by omega)
  have h3 : to_int32 n = (n : Int) := by
    unfold to_int32
    have : n % 2 ^ 32 = n := Nat.mod_eq_of_lt (by omega)
    rw [this, if_pos h]
  cases e
  · simp only [load_int, store_int, h1, le_value_le_bytes, h2, h3]
  · simp only [load_int, store_int, h1, List.reverse_reverse, le_value_le_bytes, h2, h3]

end EjRpcSrv

namespace EjRpcSrv

/-! ## The header check -/

theorem read_ret_cases (r : ReadResult) (count : Nat) :
    (r.ret count = -1 ∧ r.delivered count = []) ∨
      r.ret count = ((r.delivered count).length : Int) := by
  cases r with
  | error => left; exact ⟨rfl, rfl⟩
  | data avail => right; rfl

/-- C1 (evaluation of the code at the header `ff ff ff ff`): on every build
and for every answer of the socket to the second read, the header is loaded
as the `int` -1, the header check does not reject it, and `on_read` goes on
to `read(fd, req_buf, body_len)` with the count `(size_t)-1`.  The connection
is closed only when that read transfers nothing; when it transfers bytes,
the callback reaches the store `req_buf[-1] = 0`. -/
theorem C1_header_ffffffff_reaches_body_read (env : Env) (body : ReadResult) :
    load_int env.endian [255, 255, 255, 255] = -1 ∧
    ¬ header_wrong env 4 (-1) ∧
    on_read env (read_sys (.data [255, 255, 255, 255]) body) accepted =
      (if body.delivered 18446744073709551615 = [] then
        Outcome.returned (read_exception 0 (at_body_read 18446744073709551615))
      else Outcome.undefined (at_body_read 18446744073709551615)) := by
  have hload : load_int env.endian [255, 255, 255, 255] = -1 := by
    cases env.endian <;> decide
  have hnw : ¬ header_wrong env 4 (-1) := by
    unfold header_wrong PROTOCOL_HEADER_LEN
    have : (0 : Int) ≤ (env.BUFLEN : Int) := Int.ofNat_nonneg _
    omega
  refine ⟨hload, hnw, ?_⟩
  have hnb : ¬ store_in_bounds env (-1) := by
    unfold store_in_bounds; omega
  have hcount : ((-1 : Int) % 2 ^ SIZE_BITS).toNat = 18446744073709551615 := by decide
  have hhdr : (ReadResult.data [255, 255, 255, 255]).delivered PROTOCOL_HEADER_LEN
      = [255, 255, 255, 255] := by decide
  have hret : (ReadResult.data [255, 255, 255, 255]).ret PROTOCOL_HEADER_LEN = 4 := by decide
  have hpad : ([255, 255, 255, 255] : List Byte) ++ List.replicate (PROTOCOL_HEADER_LEN - 4) 0
      = [255, 255, 255, 255] := by decide
  have hio := read_ret_cases body 18446744073709551615
  unfold on_read
  simp only [read_sys, hhdr, hret, List.length_cons, List.length_nil, hpad, hload, hnw,
    hcount, hnb]
  generalize body.delivered 18446744073709551615 = got at hio ⊢
  generalize body.ret 18446744073709551615 = len at hio ⊢
  have hlive : accepted.client_live = true := by decide
  rw [hlive]
  rcases hio with ⟨h1, h2⟩ | h1
  · subst h1 h2
    simp [at_body_read, accepted]
  · subst h1
    by_cases hgot : got = []
    · subst hgot
      simp [at_body_read, accepted]
    · have hlen : (got.length : Int) ≠ 0 := by
        intro h0
        exact hgot (List.length_eq_zero.mp (by exact_mod_cast h0))
      have hneg : ¬ ((got.length : Int) < 0) := by omega
      by_cases hbig : got.length > env.BUFLEN
      · simp [at_body_read, accepted, hgot, hbig]
      · simp [at_body_read, accepted, hgot, hbig, hlen]

end EjRpcSrv

namespace EjRpcSrv

/-- C10 (evaluation of the code at the header value `BUFLEN`, and at -1): on
every build the header check lets `body_len = BUFLEN` and `body_len = -1`
through, and for both the index of `req_buf[body_len] = 0` is outside the
`BUFLEN` bytes of the buffer; with `BUFLEN` 1024 and the header
`00 04 00 00`, `on_read` reaches that store. -/
theorem C10_header_check_admits_out_of_bounds_index (env : Env) :
    (¬ header_wrong env 4 (env.BUFLEN : Int) ∧ ¬ store_in_bounds env (env.BUFLEN : Int)) ∧
    (¬ header_wrong env 4 (-1) ∧ ¬ store_in_bounds env (-1)) ∧
    load_int demo_env.endian [0, 4, 0, 0] = (demo_env.BUFLEN : Int) ∧
    (on_read demo_env (read_sys (.data [0, 4, 0, 0]) (.data [0x7b, 0x7d])) accepted).is_undefined
      = true ∧
    handler_calls
      (on_read demo_env (read_sys (.data [0, 4, 0, 0]) (.data [0x7b, 0x7d])) accepted).conn.trace
      = 0 := by
  have h0 : (0 : Int) ≤ (env.BUFLEN : Int) := Int.ofNat_nonneg _
  refine ⟨⟨?_, ?_⟩, ⟨?_, ?_⟩, by decide, by decide, by decide⟩
  · unfold header_wrong PROTOCOL_HEADER_LEN; omega
  · unfold store_in_bounds; omega
  · unfold header_wrong PROTOCOL_HEADER_LEN; omega
  · unfold store_in_bounds; omega

/-! ## The body read -/

set_option maxRecDepth 20000 in
/-- C5 (evaluation of the code at a short body read): with `BUFLEN` 1024, the
header `02 00 00 00` and a body read that returns one byte, `on_read` returns
with the connection open and its events armed, has invoked the dispatcher
once on a buffer whose second byte is what `malloc` left there, and has
appended the exchange to the queue. -/
theorem C5_short_body_read_is_dispatched :
    (on_read demo_env (read_sys (.data [2, 0, 0, 0]) (.data [0x7b])) accepted).is_returned
      = true ∧
    (on_read demo_env (read_sys (.data [2, 0, 0, 0]) (.data [0x7b])) accepted).conn.fd_open
      = true ∧
    (on_read demo_env (read_sys (.data [2, 0, 0, 0]) (.data [0x7b])) accepted).conn.ev_read
      = true ∧
    (on_read demo_env (read_sys (.data [2, 0, 0, 0]) (.data [0x7b])) accepted).conn.trace.take 2
      = [Event.sys_read 4, Event.sys_read 2] ∧
    handler_calls
      (on_read demo_env (read_sys (.data [2, 0, 0, 0]) (.data [0x7b])) accepted).conn.trace
      = 1 ∧
    (on_read demo_env (read_sys (.data [2, 0, 0, 0]) (.data [0x7b])) accepted).conn.writeq.map
      (fun b => (b.id, b.request.buf.take 3)) = [(0, [0x7b, 0xAA, 0])] := by
  refine ⟨by decide, by decide, by decide, by decide, by decide, by rfl⟩

/-! ## Closing a connection -/

/-- C6 (evaluation of the code when a connection with a queued exchange is
closed): after a request has been read and queued, a read-ready turn that
finds the peer gone closes the descriptor and frees the client, and the
request buffer, the response buffer, both documents and the node of the
queued exchange are all still allocated. -/
theorem C6_close_leaks_queued_exchange :
    (run demo_env (.returned accepted) [request_turn, hangup_turn]).is_returned = true ∧
    (run demo_env (.returned accepted) [request_turn, hangup_turn]).conn.fd_open = false ∧
    (run demo_env (.returned accepted) [request_turn, hangup_turn]).conn.client_live = false ∧
    (run demo_env (.returned accepted) [request_turn, hangup_turn]).conn.writeq.map (fun b => b.id)
      = [0] ∧
    (run demo_env (.returned accepted) [request_turn, hangup_turn]).conn.heap
      = [Block.request_buf 0, Block.bufferq 0, Block.request_json 0, Block.response_buf 0,
          Block.response_json 0] := by
  refine ⟨by decide, by decide, by decide, by decide, by rfl⟩

/-- C9 (evaluation of the code when a connection is closed while write-ready
is armed): after a request has been read and queued, a read-ready turn that
finds the peer gone closes the connection and removes `ev_read`, but
`ev_write` is still added, so the event loop may still run `on_write` for the
client, and that invocation uses the freed `struct client`. -/
theorem C9_write_event_survives_close (sys : WriteSys) :
    (run demo_env (.returned accepted) [request_turn, hangup_turn]).conn.fd_open = false ∧
    (run demo_env (.returned accepted) [request_turn, hangup_turn]).conn.ev_read = false ∧
    (run demo_env (.returned accepted) [request_turn, hangup_turn]).conn.ev_write = true ∧
    enabled (run demo_env (.returned accepted) [request_turn, hangup_turn]).conn
      (Callback.write sys) = true ∧
    (run demo_env (.returned accepted) [request_turn, hangup_turn, Callback.write sys]).is_undefined
      = true := by
  refine ⟨by decide, by decide, by decide, ?_, ?_⟩
  · show (run demo_env (.returned accepted) [request_turn, hangup_turn]).conn.ev_write = true
    decide
  have h : run demo_env (.returned accepted) [request_turn, hangup_turn, Callback.write sys]
      = fire demo_env (run demo_env (.returned accepted) [request_turn, hangup_turn]).conn
          (Callback.write sys) := by
    rfl
  rw [h]
  have hw : (run demo_env (.returned accepted) [request_turn, hangup_turn]).conn.ev_write
      = true := by decide
  have hl : (run demo_env (.returned accepted) [request_turn, hangup_turn]).conn.client_live
      = false := by decide
  simp only [fire, hw, if_true]
  unfold on_write
  simp [Conn.client_live] at hl ⊢
  simp [Conn.client_live, hl, Outcome.is_undefined]

/-! ## Writing a response -/

/-- C2 (evaluation of the code at two chunkings of a queued 2-byte response
`7b 7d`): when the first write-ready turn gets `EAGAIN` for the body and the
second one is taken in full, the peer receives the header twice; when the
write of the header fails and the write of the body is taken in full, the
peer receives no header.  In both runs the exchange has left the queue. -/
theorem C2_header_duplicated_or_missing :
    (run demo_env (.returned accepted) [request_turn]).conn.writeq.map
        (fun b => (b.response.buf, b.response.body_len, b.response.offset))
      = [([0x7b, 0x7d], 2, 0)] ∧
    (run demo_env (.returned accepted) [request_turn, blocked_turn, flush_turn]).conn.writeq
      = [] ∧
    (run demo_env (.returned accepted) [request_turn, blocked_turn, flush_turn]).conn.wire
      = [2, 0, 0, 0] ++ [2, 0, 0, 0] ++ [0x7b, 0x7d] ∧
    (run demo_env (.returned accepted) [request_turn, headerless_turn]).conn.writeq = [] ∧
    (run demo_env (.returned accepted) [request_turn, headerless_turn]).conn.wire
      = [0x7b, 0x7d] := by
  refine ⟨by decide, by decide, by decide, by decide, by decide⟩

end EjRpcSrv

namespace EjRpcSrv

/-! ## Traces -/

theorem inserted_append (s t : List Event) : inserted (s ++ t) = inserted s ++ inserted t := by
  induction s with
  | nil => rfl
  | cons e s ih => cases e <;> simp [inserted, ih]

theorem removed_append (s t : List Event) : removed (s ++ t) = removed s ++ removed t := by
  induction s with
  | nil => rfl
  | cons e s ih => cases e <;> simp [removed, ih]

theorem written_append (s t : List Event) : written (s ++ t) = written s ++ written t := by
  induction s with
  | nil => rfl
  | cons e s ih => cases e <;> simp [written, ih]

/-- State of the connection after the writes of one `on_write` turn for the
head `b`, before the result of the body write is examined. -/
theorem on_write_cons (env : Env) (sys : WriteSys) (c : Conn) (b : Bufferq)
    (rest : List Bufferq) (hlive : c.client_live = true) (hq : c.writeq = b :: rest) :
    on_write env sys c =
      (match sys.body with
      | .error e =>
        if e = Errno.EINTR ∨ e = Errno.EAGAIN then
          Outcome.returned
            { (sys_write b.id (remaining b.response) sys.body
                (if b.response.offset = 0 then
                  sys_write b.id (store_int env.endian b.response.body_len) sys.header c
                else c)) with ev_write := true }
        else
          Outcome.exited
            (sys_write b.id (remaining b.response) sys.body
              (if b.response.offset = 0 then
                sys_write b.id (store_int env.endian b.response.body_len) sys.header c
              else c))
      | .accept room =>
        if b.response.offset + (((remaining b.response).take room).length : Int)
            < b.response.body_len then
          Outcome.returned
            { (sys_write b.id (remaining b.response) sys.body
                (if b.response.offset = 0 then
                  sys_write b.id (store_int env.endian b.response.body_len) sys.header c
                else c)) with
              writeq := advance b (((remaining b.response).take room).length : Int) :: rest
              ev_write := true }
        else
          Outcome.returned
            { (sys_write b.id (remaining b.response) sys.body
                (if b.response.offset = 0 then
                  sys_write b.id (store_int env.endian b.response.body_len) sys.header c
                else c)) with
              writeq := rest
              heap := (sys_write b.id (remaining b.response) sys.body
                (if b.response.offset = 0 then
                  sys_write b.id (store_int env.endian b.response.body_len) sys.header c
                else c)).heap.diff (freed_blocks b)
              trace := (sys_write b.id (remaining b.response) sys.body
                (if b.response.offset = 0 then
                  sys_write b.id (store_int env.endian b.response.body_len) sys.header c
                else c)).trace ++ [Event.remove b.id] }) := by
  unfold on_write
  rw [hlive, hq]
  rfl

theorem header_write_frame (env : Env) (sys : WriteSys) (c : Conn) (b : Bufferq) :
    let c1 := if b.response.offset = 0 then
        sys_write b.id (store_int env.endian b.response.body_len) sys.header c
      else c
    c1.writeq = c.writeq ∧ c1.heap = c.heap ∧ c1.fd_open = c.fd_open ∧ c1.next = c.next ∧
      c1.ev_read = c.ev_read ∧ removed c1.trace = removed c.trace ∧
      inserted c1.trace = inserted c.trace ∧
      (written c1.trace = written c.trace ∨ written c1.trace = written c.trace ++ [b.id]) := by
  intro c1
  by_cases h : b.response.offset = 0
  · have : c1 = sys_write b.id (store_int env.endian b.response.body_len) sys.header c := by
      simp [c1, h]
    rw [this]
    simp [sys_write, removed_append, inserted_append, written_append, removed, inserted, written]
  · have : c1 = c := by simp [c1, h]
    rw [this]
    simp

/-- C8: when the body write of `on_write` fails with `EINTR` or `EAGAIN`, the
callback returns with `ev_write` added again and with the write queue as it
was: the same entry at the head with the same offset and body length, the
same entries behind it, no entry removed and no block freed. -/
theorem C8_would_block_keeps_queue (env : Env) (sys : WriteSys) (c : Conn) (b : Bufferq)
    (rest : List Bufferq) (e : Errno) (hlive : c.client_live = true)
    (hq : c.writeq = b :: rest) (hbody : sys.body = WriteResult.error e)
    (he : e = Errno.EINTR ∨ e = Errno.EAGAIN) :
    ∃ c1, on_write env sys c = Outcome.returned c1 ∧ c1.ev_write = true ∧
      c1.writeq = b :: rest ∧ c1.heap = c.heap ∧ removed c1.trace = removed c.trace ∧
      c1.fd_open = c.fd_open ∧ c1.ev_read = c.ev_read := by
  obtain ⟨h1, h2, h3, -, h5, h6, -, -⟩ := header_write_frame env sys c b
  rw [on_write_cons env sys c b rest hlive hq, hbody]
  simp only [he, if_true]
  refine ⟨_, rfl, rfl, h1.trans hq, h2, ?_, h3, h5⟩
  show removed (_ ++ [Event.sys_write _ _ _]) = _
  rw [removed_append, h6]
  simp [removed]

/-- C8 at a concrete input: a client with one queued response whose body
write gets `EAGAIN`. -/
theorem C8_would_block_keeps_queue_witness :
    ∃ c1, on_write demo_env { header := .accept 4, body := .error Errno.EAGAIN } queued_conn
        = Outcome.returned c1 ∧ c1.ev_write = true ∧
      c1.writeq = queued_entry :: [] ∧ c1.heap = queued_conn.heap ∧
      removed c1.trace = removed queued_conn.trace ∧
      c1.fd_open = queued_conn.fd_open ∧ c1.ev_read = queued_conn.ev_read :=
  C8_would_block_keeps_queue demo_env { header := .accept 4, body := .error Errno.EAGAIN }
    queued_conn queued_entry [] Errno.EAGAIN (by decide) rfl rfl (Or.inr rfl)

end EjRpcSrv

namespace EjRpcSrv

/-! ## Framing round trip -/

theorem take_set_self (l : List Byte) (n : Nat) (a : Byte) :
    (l.set n a).take n = l.take n := by
  rw [List.set_take]
  exact List.set_eq_of_length_le (by simp)

/-- C3, amended to bodies that are neither empty nor as long as the buffer:
for every body `B` with `0 < len(B) < BUFLEN`, when the header read delivers
the four bytes holding `len(B)` and the body read delivers `B`, the header
decodes to `len(B)`, `on_read` returns with the connection open, and the
buffer handed to the dispatcher and queued holds exactly `B` in its first
`len(B)` bytes. -/
theorem C3_frame_round_trip (env : Env) (sys : ReadSys) (c : Conn) (B : List Byte)
    (hlive : c.client_live = true) (hmalloc : sys.malloc_ok = true)
    (hcalloc : sys.calloc_ok = true) (hint : env.BUFLEN < 2 ^ 31)
    (hpos : 0 < B.length) (hlt : B.length < env.BUFLEN)
    (hheader : sys.header = ReadResult.data (store_int env.endian (B.length : Int)))
    (hbody : sys.body = ReadResult.data B) :
    frame_accepted env sys c B := by
  have hB31 : B.length < 2 ^ 31 := by omega
  have hload := load_store_int env.endian B.length hB31
  have hslen := store_int_length env.endian (B.length : Int)
  have hdel : sys.header.delivered PROTOCOL_HEADER_LEN = store_int env.endian (B.length : Int) := by
    rw [hheader]
    simp only [ReadResult.delivered, PROTOCOL_HEADER_LEN]
    exact List.take_of_length_le (by omega)
  have hret : sys.header.ret PROTOCOL_HEADER_LEN = 4 := by
    rw [hheader]
    simp only [ReadResult.ret, PROTOCOL_HEADER_LEN]
    rw [List.take_of_length_le (by omega), hslen]
    rfl
  have hpad : store_int env.endian (B.length : Int)
      ++ List.replicate (PROTOCOL_HEADER_LEN - (store_int env.endian (B.length : Int)).length) 0
      = store_int env.endian (B.length : Int) := by
    rw [hslen]; simp [PROTOCOL_HEADER_LEN]
  have hnw : ¬ header_wrong env 4 (B.length : Int) := by
    unfold header_wrong PROTOCOL_HEADER_LEN; omega
  have hcount : (((B.length : Int)) % 2 ^ SIZE_BITS).toNat = B.length := by
    unfold SIZE_BITS; omega
  have hgot : sys.body.delivered B.length = B := by
    rw [hbody]; simp [ReadResult.delivered]
  have hbret : sys.body.ret B.length = (B.length : Int) := by
    rw [hbody]; simp [ReadResult.ret]
  have hnbig : ¬ B.length > env.BUFLEN := by omega
  have hne0 : ¬ (B.length : Int) = 0 := by omega
  have hnneg : ¬ (B.length : Int) < 0 := by omega
  have hin : store_in_bounds env (B.length : Int) := by
    unfold store_in_bounds; omega
  have hres : on_read env sys c = Outcome.returned
      (queue_exchange env sys c.next
        ((B ++ ((List.range env.BUFLEN).map sys.junk).drop B.length).set B.length 0)
        { c with
          next := c.next + 1
          heap := c.heap ++ [Block.request_buf c.next]
          trace := c.trace ++ [Event.sys_read PROTOCOL_HEADER_LEN] ++ [Event.sys_read B.length] }) := by
    unfold on_read
    simp only [hlive, hmalloc, hcalloc, hdel, hret, hpad, hload, hnw, hcount, hgot, hbret,
      hnbig, hne0, hnneg, hin, Bool.not_true, Bool.false_eq_true, if_false, not_true_eq_false,
      Int.toNat_ofNat]
  refine ⟨by rw [hdel]; exact hload, _,
    (B ++ ((List.range env.BUFLEN).map sys.junk).drop B.length).set B.length 0, hres, rfl, ?_,
    ?_, new_entry env sys c.next _, rfl, rfl, rfl⟩
  · simp [queue_exchange, List.append_assoc]
  · rw [take_set_self]
    exact List.take_left B _

/-- C3 at a concrete input: the frame `02 00 00 00 7b 7d` on a build with
`BUFLEN` 1024. -/
theorem C3_frame_round_trip_witness :
    frame_accepted demo_env (read_sys (.data (store_int demo_env.endian 2)) (.data [0x7b, 0x7d]))
      accepted [0x7b, 0x7d] :=
  C3_frame_round_trip demo_env (read_sys (.data (store_int demo_env.endian 2)) (.data [0x7b, 0x7d]))
    accepted [0x7b, 0x7d] (by decide) rfl rfl (by decide) (by decide) (by decide) rfl rfl

set_option maxRecDepth 20000 in
/-- C3 as stated fails at both ends of its range.  With `BUFLEN` 1024, the
frame `00 00 00 00` (header for `len(B) = 0`, then no body) makes the body
read return 0, and `on_read` closes the connection without invoking the
dispatcher.  The frame with `len(B) = BUFLEN` passes the header check and the
body read, and `on_read` then stores the terminator at `req_buf[BUFLEN]`,
outside the buffer, before the dispatcher is reached. -/
theorem C3_fails_at_empty_and_full_body :
    (([] : List Byte).length ≤ demo_env.BUFLEN ∧
      empty_frame_sys.header
        = ReadResult.data (store_int demo_env.endian (([] : List Byte).length : Int)) ∧
      empty_frame_sys.body = ReadResult.data [] ∧
      (on_read demo_env empty_frame_sys accepted).conn.fd_open = false ∧
      handler_calls (on_read demo_env empty_frame_sys accepted).conn.trace = 0 ∧
      ¬ frame_accepted demo_env empty_frame_sys accepted []) ∧
    (full_body.length ≤ demo_env.BUFLEN ∧
      full_frame_sys.header
        = ReadResult.data (store_int demo_env.endian (full_body.length : Int)) ∧
      full_frame_sys.body = ReadResult.data full_body ∧
      (on_read demo_env full_frame_sys accepted).is_undefined = true ∧
      handler_calls (on_read demo_env full_frame_sys accepted).conn.trace = 0 ∧
      ¬ frame_accepted demo_env full_frame_sys accepted full_body) := by
  have hclosed : (on_read demo_env empty_frame_sys accepted).conn.fd_open = false := by decide
  have hundef : (on_read demo_env full_frame_sys accepted).is_undefined = true := by decide
  refine ⟨⟨by decide, rfl, rfl, hclosed, by decide, ?_⟩, ⟨by decide, rfl, rfl, hundef, by decide, ?_⟩⟩
  · rintro ⟨-, c1, req, hret, hfd, -⟩
    rw [hret] at hclosed
    have : c1.fd_open = true := hfd
    simp [Outcome.conn] at hclosed
    rw [hclosed] at this
    exact Bool.false_ne_true this
  · rintro ⟨-, c1, req, hret, -⟩
    rw [hret] at hundef
    exact Bool.false_ne_true hundef

end EjRpcSrv

namespace EjRpcSrv

/-! ## Effect of one callback on the queue and on the trace -/

theorem on_write_idle (env : Env) (sys : WriteSys) (c : Conn)
    (h : c.client_live = false ∨ c.writeq = []) : (on_write env sys c).conn = c := by
  unfold on_write
  by_cases hl : c.client_live = true
  · rcases h with h | h
    · rw [h] at hl; exact absurd hl (by decide)
    · rw [hl, h]; rfl
  · have hl2 : c.client_live = false := by
      cases hc : c.client_live
      · rfl
      · exact absurd hc hl
    rw [hl2]; rfl

theorem on_write_effect (env : Env) (sys : WriteSys) (c : Conn) (b : Bufferq)
    (rest : List Bufferq) (hlive : c.client_live = true) (hq : c.writeq = b :: rest) :
    inserted (on_write env sys c).conn.trace = inserted c.trace ∧
    (on_write env sys c).conn.next = c.next ∧
    (∃ ws, written (on_write env sys c).conn.trace = written c.trace ++ ws ∧
      ∀ w ∈ ws, w = b.id) ∧
    (((on_write env sys c).conn.writeq = b :: rest ∧
        removed (on_write env sys c).conn.trace = removed c.trace) ∨
      (b.response.offset + ((sys.body.taken (remaining b.response)).length : Int)
          < b.response.body_len ∧
        (on_write env sys c).conn.writeq
          = advance b ((sys.body.taken (remaining b.response)).length : Int) :: rest ∧
        removed (on_write env sys c).conn.trace = removed c.trace) ∨
      ((on_write env sys c).conn.writeq = rest ∧
        removed (on_write env sys c).conn.trace = removed c.trace ++ [b.id])) := by
  obtain ⟨h1, -, -, h4, -, h6, h7, h8⟩ := header_write_frame env sys c b
  rw [on_write_cons env sys c b rest hlive hq]
  generalize (if b.response.offset = 0 then
      sys_write b.id (store_int env.endian b.response.body_len) sys.header c else c) = c1
    at h1 h4 h6 h7 h8 ⊢
  have hws : ∃ ws, written (c1.trace ++ [Event.sys_write b.id (remaining b.response)
      (sys.body.taken (remaining b.response))]) = written c.trace ++ ws ∧ ∀ w ∈ ws, w = b.id := by
    rw [written_append]
    rcases h8 with h8 | h8
    · exact ⟨[b.id], by rw [h8]; rfl, by simp⟩
    · exact ⟨[b.id, b.id], by rw [h8]; simp [written], by simp⟩
  have hins : inserted (c1.trace ++ [Event.sys_write b.id (remaining b.response)
      (sys.body.taken (remaining b.response))]) = inserted c.trace := by
    rw [inserted_append, h7]; simp [inserted]
  have hrem : removed (c1.trace ++ [Event.sys_write b.id (remaining b.response)
      (sys.body.taken (remaining b.response))]) = removed c.trace := by
    rw [removed_append, h6]; simp [removed]
  cases hb : sys.body with
  | error e =>
    simp only
    by_cases he : e = Errno.EINTR ∨ e = Errno.EAGAIN
    · rw [if_pos he]
      rw [hb] at hws hins hrem
      exact ⟨hins, h4, hws, Or.inl ⟨h1.trans hq, hrem⟩⟩
    · rw [if_neg he]
      rw [hb] at hws hins hrem
      exact ⟨hins, h4, hws, Or.inl ⟨h1.trans hq, hrem⟩⟩
  | accept room =>
    simp only
    rw [hb] at hws hins hrem
    by_cases hlt : b.response.offset + (((remaining b.response).take room).length : Int)
        < b.response.body_len
    · rw [if_pos hlt]
      exact ⟨hins, h4, hws, Or.inr (Or.inl ⟨hlt, rfl, hrem⟩)⟩
    · rw [if_neg hlt]
      refine ⟨?_, h4, ?_, Or.inr (Or.inr ⟨rfl, ?_⟩)⟩
      · show inserted (_ ++ [Event.remove b.id]) = _
        rw [inserted_append]
        simp only [sys_write, inserted, List.append_nil]
        exact hins
      · obtain ⟨ws, hw1, hw2⟩ := hws
        refine ⟨ws, ?_, hw2⟩
        show written (_ ++ [Event.remove b.id]) = _
        rw [written_append]
        simp only [sys_write, written, List.append_nil]
        exact hw1
      · show removed (_ ++ [Event.remove b.id]) = _
        rw [removed_append]
        simp only [sys_write, removed]
        rw [hrem]

end EjRpcSrv

namespace EjRpcSrv

theorem on_read_effect (env : Env) (sys : ReadSys) (c : Conn) :
    removed (on_read env sys c).conn.trace = removed c.trace ∧
    written (on_read env sys c).conn.trace = written c.trace ∧
    c.next ≤ (on_read env sys c).conn.next ∧
    (((on_read env sys c).conn.writeq = c.writeq ∧
        inserted (on_read env sys c).conn.trace = inserted c.trace) ∨
      (∃ req, (on_read env sys c).conn.writeq = c.writeq ++ [new_entry env sys c.next req] ∧
        inserted (on_read env sys c).conn.trace = inserted c.trace ++ [c.next] ∧
        (on_read env sys c).conn.next = c.next + 1)) := by
  generalize ho : on_read env sys c = o
  unfold on_read at ho
  simp only [] at ho
  split_ifs at ho <;> subst ho <;>
    simp [Outcome.conn, read_exception, queue_exchange, removed_append, written_append,
      inserted_append, removed, written, inserted]

end EjRpcSrv

namespace EjRpcSrv

/-! ## Invariants of the event loop -/

theorem run_induction (env : Env) (P : Conn → Prop)
    (hstep : ∀ c cb, P c → P (fire env c cb).conn) :
    ∀ (cbs : List Callback) (o : Outcome), P o.conn → P (run env o cbs).conn := by
  intro cbs
  induction cbs with
  | nil => intro o h; cases o <;> exact h
  | cons cb cbs ih =>
    intro o h
    cases o with
    | returned c => exact ih _ (hstep c cb h)
    | exited c => exact h
    | undefined c => exact h

theorem fifo_inv_on_read (env : Env) (sys : ReadSys) (c : Conn) (h : fifo_inv c) :
    fifo_inv (on_read env sys c).conn := by
  obtain ⟨h1, h2, h3, h4, h5, h6⟩ := h
  obtain ⟨e1, e2, e3, e4⟩ := on_read_effect env sys c
  unfold fifo_inv
  rw [e1, e2]
  rcases e4 with ⟨eq, ei⟩ | ⟨req, eq, ei, en⟩
  · rw [eq, ei]
    exact ⟨h1, h2, fun i hi => lt_of_lt_of_le (h3 i hi) e3, h4, h5, h6⟩
  · rw [eq, ei, en]
    refine ⟨?_, ?_, ?_, h4, ?_, ?_⟩
    · rw [List.map_append, ← List.append_assoc, h1]; rfl
    · rw [List.pairwise_append]
      refine ⟨h2, List.pairwise_singleton _ _, ?_⟩
      intro a ha b hb
      rw [List.mem_singleton] at hb
      rw [hb]; exact h3 a ha
    · intro i hi
      rw [List.mem_append, List.mem_singleton] at hi
      rcases hi with hi | hi
      · exact Nat.lt_succ_of_lt (h3 i hi)
      · rw [hi]; exact Nat.lt_succ_self _
    · intro w hw
      exact List.mem_append_left _ (h5 w hw)
    · intro w hw i hi
      rw [List.map_append, List.mem_append] at hi
      rcases hi with hi | hi
      · exact h6 w hw i hi
      · have : i = c.next := by simpa [new_entry] using hi
        rw [this]; exact le_of_lt (h3 w (h5 w hw))

theorem fifo_inv_on_write (env : Env) (sys : WriteSys) (c : Conn) (h : fifo_inv c) :
    fifo_inv (on_write env sys c).conn := by
  by_cases hlive : c.client_live = true
  swap
  · rw [on_write_idle env sys c (Or.inl (by simpa using hlive))]; exact h
  cases hq : c.writeq with
  | nil => rw [on_write_idle env sys c (Or.inr hq)]; exact h
  | cons b rest =>
    obtain ⟨h1, h2, h3, h4, h5, h6⟩ := h
    obtain ⟨e1, e2, ⟨ws, e3, e3b⟩, e4⟩ := on_write_effect env sys c b rest hlive hq
    rw [hq] at h1 h6
    have hsuffix : (List.map (fun b => b.id) (b :: rest)).Pairwise (fun i j => i < j) := by
      have := h2
      rw [← h1, List.pairwise_append] at this
      exact this.2.1
    have hhead : ∀ i ∈ List.map (fun b => b.id) (b :: rest), b.id ≤ i := by
      intro i hi
      rw [List.map_cons, List.mem_cons] at hi
      rcases hi with hi | hi
      · rw [hi]
      · rw [List.map_cons, List.pairwise_cons] at hsuffix
        exact le_of_lt (hsuffix.1 i hi)
    have hbin : b.id ∈ inserted c.trace := by
      rw [← h1]; simp
    have hw4 : (written c.trace ++ ws).Pairwise (fun i j => i ≤ j) := by
      rw [List.pairwise_append]
      refine ⟨h4, ?_, ?_⟩
      · rw [List.pairwise_iff_forall_sublist]
        intro x y hxy
        have hx := e3b x (hxy.subset (by simp))
        have hy := e3b y (hxy.subset (by simp))
        rw [hx, hy]
      · intro x hx y hy
        rw [e3b y hy]
        exact h6 x hx b.id (by simp)
    have hw5 : ∀ w ∈ written c.trace ++ ws, w ∈ inserted c.trace := by
      intro w hw
      rw [List.mem_append] at hw
      rcases hw with hw | hw
      · exact h5 w hw
      · rw [e3b w hw]; exact hbin
    have hw6 : ∀ w ∈ written c.trace ++ ws, ∀ i ∈ List.map (fun b => b.id) (b :: rest), w ≤ i := by
      intro w hw i hi
      rw [List.mem_append] at hw
      rcases hw with hw | hw
      · exact h6 w hw i hi
      · rw [e3b w hw]; exact hhead i hi
    unfold fifo_inv
    rw [e1, e2, e3]
    rcases e4 with ⟨eq, er⟩ | ⟨-, eq, er⟩ | ⟨eq, er⟩
    · rw [eq, er]
      exact ⟨h1, h2, h3, hw4, hw5, hw6⟩
    · rw [eq, er]
      exact ⟨h1, h2, h3, hw4, hw5, hw6⟩
    · rw [eq, er]
      refine ⟨?_, h2, h3, hw4, hw5, ?_⟩
      · rw [← h1]; simp
      · intro w hw i hi
        exact hw6 w hw i (by rw [List.map_cons]; exact List.mem_cons_of_mem _ hi)

theorem fifo_inv_fire (env : Env) (c : Conn) (cb : Callback) (h : fifo_inv c) :
    fifo_inv (fire env c cb).conn := by
  cases cb with
  | read sys =>
    unfold fire
    by_cases hr : c.ev_read = true
    · simp only [hr, if_true]; exact fifo_inv_on_read env sys c h
    · simp only [hr]; exact h
  | write sys =>
    unfold fire
    by_cases hw : c.ev_write = true
    · simp only [hw, if_true]
      exact fifo_inv_on_write env sys _ h
    · simp only [hw]; exact h

theorem fifo_inv_accepted : fifo_inv accepted := by
  unfold fifo_inv accepted
  simp [removed, inserted, written]

end EjRpcSrv

namespace EjRpcSrv

theorem offset_inv_on_read (env : Env) (hh : ∀ r, 0 ≤ (env.rpc_handler r).body_len)
    (sys : ReadSys) (c : Conn) (h : offset_inv c) : offset_inv (on_read env sys c).conn := by
  obtain ⟨-, -, -, e4⟩ := on_read_effect env sys c
  unfold offset_inv
  rcases e4 with ⟨eq, -⟩ | ⟨req, eq, -, -⟩
  · rw [eq]; exact h
  · rw [eq]
    intro b hb
    rw [List.mem_append, List.mem_singleton] at hb
    rcases hb with hb | hb
    · exact h b hb
    · rw [hb]; exact hh req

theorem on_write_queue_cases (env : Env) (sys : WriteSys) (c : Conn) :
    (on_write env sys c).conn.writeq = c.writeq ∨
    (∃ b rest, c.writeq = b :: rest ∧
      b.response.offset + ((sys.body.taken (remaining b.response)).length : Int)
        < b.response.body_len ∧
      (on_write env sys c).conn.writeq
        = advance b ((sys.body.taken (remaining b.response)).length : Int) :: rest) ∨
    (∃ b, c.writeq = b :: (on_write env sys c).conn.writeq) := by
  by_cases hlive : c.client_live = true
  swap
  · rw [on_write_idle env sys c (Or.inl (by simpa using hlive))]; exact Or.inl rfl
  cases hq : c.writeq with
  | nil => rw [on_write_idle env sys c (Or.inr hq)]; exact Or.inl hq
  | cons b rest =>
    obtain ⟨-, -, -, e4⟩ := on_write_effect env sys c b rest hlive hq
    rcases e4 with ⟨eq, -⟩ | ⟨hlt, eq, -⟩ | ⟨eq, -⟩
    · exact Or.inl eq
    · exact Or.inr (Or.inl ⟨b, rest, rfl, hlt, eq⟩)
    · exact Or.inr (Or.inr ⟨b, by rw [eq]⟩)

theorem offset_inv_on_write (env : Env) (sys : WriteSys) (c : Conn) (h : offset_inv c) :
    offset_inv (on_write env sys c).conn := by
  unfold offset_inv at h ⊢
  rcases on_write_queue_cases env sys c with eq | ⟨b, rest, hq, hlt, eq⟩ | ⟨b, hq⟩
  · rw [eq]; exact h
  · rw [eq]
    intro x hx
    rw [List.mem_cons] at hx
    rcases hx with hx | hx
    · rw [hx]; exact le_of_lt hlt
    · exact h x (by rw [hq]; exact List.mem_cons_of_mem _ hx)
  · intro x hx
    exact h x (by rw [hq]; exact List.mem_cons_of_mem _ hx)

theorem offset_inv_fire (env : Env) (hh : ∀ r, 0 ≤ (env.rpc_handler r).body_len)
    (c : Conn) (cb : Callback) (h : offset_inv c) : offset_inv (fire env c cb).conn := by
  cases cb with
  | read sys =>
    unfold fire
    by_cases hr : c.ev_read = true
    · simp only [hr, if_true]; exact offset_inv_on_read env hh sys c h
    · simp only [hr]; exact h
  | write sys =>
    unfold fire
    by_cases hw : c.ev_write = true
    · simp only [hw, if_true]
      exact offset_inv_on_write env sys _ h
    · simp only [hw]; exact h

theorem on_read_appends (env : Env) (sys : ReadSys) (c : Conn) :
    c.writeq <+: (on_read env sys c).conn.writeq ∧
      (on_read env sys c).conn.writeq.length ≤ c.writeq.length + 1 := by
  obtain ⟨-, -, -, e4⟩ := on_read_effect env sys c
  rcases e4 with ⟨eq, -⟩ | ⟨req, eq, -, -⟩
  · rw [eq]; exact ⟨List.prefix_refl _, Nat.le_succ _⟩
  · rw [eq]; exact ⟨List.prefix_append _ _, by simp⟩

theorem on_write_pops (env : Env) (sys : WriteSys) (c : Conn) :
    (on_write env sys c).conn.writeq.map (fun b => b.id) <:+ c.writeq.map (fun b => b.id) ∧
      c.writeq.length ≤ (on_write env sys c).conn.writeq.length + 1 := by
  rcases on_write_queue_cases env sys c with eq | ⟨b, rest, hq, -, eq⟩ | ⟨b, hq⟩
  · rw [eq]; exact ⟨List.suffix_refl _, Nat.le_succ _⟩
  · rw [eq, hq]; exact ⟨List.suffix_refl _, by simp⟩
  · constructor
    · conv => rhs; rw [hq]
      rw [List.map_cons]
      exact List.suffix_cons _ _
    · conv => lhs; rw [hq]
      simp

end EjRpcSrv

namespace EjRpcSrv

theorem on_write_writes_head (env : Env) (sys : WriteSys) (c : Conn) :
    ∃ k, written (on_write env sys c).conn.trace
      = written c.trace ++ List.replicate k ((c.writeq.map (fun b => b.id)).headD 0) := by
  by_cases hlive : c.client_live = true
  swap
  · rw [on_write_idle env sys c (Or.inl (by simpa using hlive))]; exact ⟨0, by simp⟩
  cases hq : c.writeq with
  | nil => rw [on_write_idle env sys c (Or.inr hq)]; exact ⟨0, by simp⟩
  | cons b rest =>
    obtain ⟨-, -, ⟨ws, e3, e3b⟩, -⟩ := on_write_effect env sys c b rest hlive hq
    refine ⟨ws.length, ?_⟩
    rw [e3]
    congr 1
    exact List.eq_replicate_iff.mpr ⟨rfl, e3b⟩

/-! ## Queue order -/

/-- C4: on every run of the event loop from a freshly accepted client, for
every interleaving of read-ready and write-ready turns and every answer of
the socket, the entries removed from the write queue followed by the entries
still in it are the entries appended, in the order they were appended, and
the entries were appended in the order of the `on_read` invocations (their
serial numbers increase); the `write(2)` calls are made for entries in that
same order.  Step by step: `on_read` leaves the old queue as a prefix of the
new one and adds at most one entry, `on_write` leaves a suffix of the old
queue, and every `write(2)` of an `on_write` turn is for the head of the
queue. -/
theorem C4_queue_is_fifo (env : Env) (cbs : List Callback) :
    (removed (run env (.returned accepted) cbs).conn.trace
        ++ (run env (.returned accepted) cbs).conn.writeq.map (fun b => b.id)
      = inserted (run env (.returned accepted) cbs).conn.trace) ∧
    (inserted (run env (.returned accepted) cbs).conn.trace).Pairwise (fun i j => i < j) ∧
    (written (run env (.returned accepted) cbs).conn.trace).Pairwise (fun i j => i ≤ j) ∧
    (∀ (sys : ReadSys) (c : Conn), c.writeq <+: (on_read env sys c).conn.writeq ∧
      (on_read env sys c).conn.writeq.length ≤ c.writeq.length + 1) ∧
    (∀ (sys : WriteSys) (c : Conn),
      (on_write env sys c).conn.writeq.map (fun b => b.id) <:+ c.writeq.map (fun b => b.id) ∧
      c.writeq.length ≤ (on_write env sys c).conn.writeq.length + 1) ∧
    (∀ (sys : WriteSys) (c : Conn), ∃ k, written (on_write env sys c).conn.trace
      = written c.trace ++ List.replicate k ((c.writeq.map (fun b => b.id)).headD 0)) := by
  have h := run_induction env fifo_inv (fun c cb hc => fifo_inv_fire env c cb hc) cbs
    (.returned accepted) fifo_inv_accepted
  obtain ⟨h1, h2, -, h4, -, -⟩ := h
  exact ⟨h1, h2, h4, on_read_appends env, on_write_pops env, on_write_writes_head env⟩

/-! ## The write cursor -/

/-- C7: provided the handler never leaves a negative `body_len`, on every run
of the event loop from a freshly accepted client every queued response has
`offset <= body_len`.  The entry `on_read` appends has offset 0;  `on_write`
preserves the invariant whatever the two writes return; and `on_write`
either leaves the queue as it was, or removes the head, or adds the return
value `len` of the body write to the offset of the head, the last only when
`offset + len < body_len`. -/
theorem C7_offset_le_body_len (env : Env) (hh : ∀ r, 0 ≤ (env.rpc_handler r).body_len)
    (cbs : List Callback) :
    (∀ b ∈ (run env (.returned accepted) cbs).conn.writeq,
      b.response.offset ≤ b.response.body_len) ∧
    (∀ (sys : ReadSys) (c : Conn), (on_read env sys c).conn.writeq = c.writeq ∨
      ∃ b, (on_read env sys c).conn.writeq = c.writeq ++ [b] ∧ b.response.offset = 0 ∧
        b.response.offset ≤ b.response.body_len) ∧
    (∀ (sys : WriteSys) (c : Conn), (∀ b ∈ c.writeq, b.response.offset ≤ b.response.body_len) →
      ∀ b ∈ (on_write env sys c).conn.writeq, b.response.offset ≤ b.response.body_len) ∧
    (∀ (sys : WriteSys) (c : Conn), (on_write env sys c).conn.writeq = c.writeq ∨
      (∃ b rest, c.writeq = b :: rest ∧
        b.response.offset + ((sys.body.taken (remaining b.response)).length : Int)
          < b.response.body_len ∧
        (on_write env sys c).conn.writeq
          = advance b ((sys.body.taken (remaining b.response)).length : Int) :: rest) ∨
      (∃ b, c.writeq = b :: (on_write env sys c).conn.writeq)) := by
  have h := run_induction env offset_inv (fun c cb hc => offset_inv_fire env hh c cb hc) cbs
    (.returned accepted) (by intro b hb; simp [accepted, Outcome.conn] at hb)
  refine ⟨h, ?_, fun sys c hc => offset_inv_on_write env sys c hc, on_write_queue_cases env⟩
  intro sys c
  obtain ⟨-, -, -, e4⟩ := on_read_effect env sys c
  rcases e4 with ⟨eq, -⟩ | ⟨req, eq, -, -⟩
  · exact Or.inl eq
  · exact Or.inr ⟨_, eq, rfl, hh req⟩

/-- C7 at a concrete input: a build whose handler answers with two bytes, a
request, and a write-ready turn in which the socket takes one byte of the
body. -/
theorem C7_offset_le_body_len_witness :
    (∀ r, 0 ≤ (demo_env.rpc_handler r).body_len) ∧
    (run demo_env (.returned accepted) [request_turn, short_write_turn]).conn.writeq.map
        (fun b => (b.response.offset, b.response.body_len)) = [(1, 2)] ∧
    (∀ b ∈ (run demo_env (.returned accepted) [request_turn, short_write_turn]).conn.writeq,
      b.response.offset ≤ b.response.body_len) :=
  ⟨fun _ => (by decide : (0 : Int) ≤ 2), by decide,
    (C7_offset_le_body_len demo_env (fun _ => (by decide : (0 : Int) ≤ 2))
      [request_turn, short_write_turn]).1⟩

end EjRpcSrv
